import Mathlib

/-!
Verification development for the Mippet macro-assembler core
(src/mippet/nodes/node.py, src/mippet/nodes/instruction.py,
src/mippet/nodes/procedures.py).

Conventions of the shallow embedding:
* Register, pointer and number operands are embedded structurally
  (`RegisterNode`, `Param`, integer offsets as `Int`; Python `str(int)`
  is `Int.repr`).
* Each emitted target instruction is one `Instr`; its rendered text is
  `render`.  The Python code builds output by joining component strings
  with a newline and occasionally re-splitting on newlines; since every
  rendered instruction is a single line (no newline character, see
  `render_has_no_newline`), we model all of that at the level of lists
  of lines joined by `joinLines`, which mirrors the newline-join.
* The runtime meaning of the straight-line spill and unspill sequences
  (only `addi`/`lw`/`sw`/`li` instructions) is given by `exec`/`run` on a
  machine state of integer registers and word-addressed memory.  Control
  flow and stores to data labels are outside the straight-line claims
  and are modelled as no-ops of `exec` (they never occur inside the
  sequences the semantic theorems talk about).
* Fallible lowering steps (`call` to an unknown procedure, named
  `syscall` with an unknown name) return `Except String`.  The lookup
  `ctxt.procedures[name]` in CallInstruction.construct hits a
  `defaultdict(list)`, so a missing procedure yields the empty-list
  default and the subsequent `.values()` call raises an AttributeError
  whose CPython message is the fixed text modelled below: it does not
  contain the procedure name.
* The syscall name table is external data (`syscalls.txt` is not part of
  the sources); it is passed as an abstract `String → Option Int`
  parameter, as the spec describes it (name to numeric id).
-/

/-- Embeds RegisterNode (node.py): a register operand, value-equal by name. -/
structure RegisterNode where
  reg : String
deriving DecidableEq, Repr

/-- RegisterNode.sp -/
def spReg : RegisterNode := ⟨"$sp"⟩

/-- RegisterNode.ra -/
def raReg : RegisterNode := ⟨"$ra"⟩

/-- RegisterNode.v0 -/
def v0Reg : RegisterNode := ⟨"$v0"⟩

/-- The scratch register used by the depth-aware spill. -/
def t9Reg : RegisterNode := ⟨"$t9"⟩

/-- RegisterNode.construct (node.py lines 83-86): `$0` prints as `$zero`,
every other register name verbatim. -/
def regConstruct (r : RegisterNode) : String :=
  if r.reg = "$0" then "$zero" else r.reg

/-- Same rule at the level of the raw register name (used by `render`). -/
def regRenderStr (r : String) : String :=
  if r = "$0" then "$zero" else r

/-- A procedure parameter binding value: RegisterNode or PointerNode. -/
inductive Param where
  | register (r : RegisterNode)
  | pointer (base : RegisterNode) (offset : Int)
deriving DecidableEq, Repr

/-- An ordered parameter map: parameter name to bound operand. -/
abbrev ParamList := List (String × Param)

/-- `isinstance(p, PointerNode) and p.base == RegisterNode.sp` -/
def isSpPointer : Param → Bool
  | .pointer base _ => base == spReg
  | _ => false

/-- The spill depth computed in CallInstruction.construct (instruction.py
line 359, `sum(1 for p in parameters.values() if ...)`) and in
ProcedureNode.construct (procedures.py lines 124-127, `len([...])`):
the number of parameter values that are stack-pointer based pointers. -/
def spillDepthOf (params : ParamList) : Nat :=
  ((params.map Prod.snd).filter isSpPointer).length

/-- The target instructions that the spill engine and the lowerings in the
claims emit.  Register operands are carried as names; offsets/immediates
as integers. -/
inductive Instr where
  | addi (dst src : String) (imm : Int)
  | li (dst : String) (imm : Int)
  | lw (dst base : String) (off : Int)
  | sw (src base : String) (off : Int)
  | swId (src : String) (target : String)
  | jal (target : String)
  | jr (r : String)
  | syscallI
deriving DecidableEq, Repr

/-- The store loop of the depth-0 spill (instruction.py lines 26-29):
`sw r, (i*4)($sp)` for `i, r in enumerate(registers, 1)`, started at `i`. -/
def storeSeq : List RegisterNode → Nat → List Instr
  | [], _ => []
  | r :: rs, i => .sw r.reg "$sp" ((4 * i : Nat) : Int) :: storeSeq rs (i + 1)

/-- The load loop of unspill (instruction.py lines 52-54):
`lw r, (i*4)($sp)` for `i, r in enumerate(registers, 1)`, started at `i`. -/
def loadSeq : List RegisterNode → Nat → List Instr
  | [], _ => []
  | r :: rs, i => .lw r.reg "$sp" ((4 * i : Nat) : Int) :: loadSeq rs (i + 1)

/-- The word-shifting loop of the single-register depth spill
(instruction.py lines 40-45): for `i in range(1, depth + 1)` emit
`lw $t9, ((i+1)*4)($sp); sw $t9, (i*4)($sp)`.  Stated by recursion on the
last iteration so that iteration `d + 1` contributes the final pair. -/
def shiftInstrs : Nat → List Instr
  | 0 => []
  | d + 1 =>
      shiftInstrs d ++
        [.lw "$t9" "$sp" ((4 * (d + 2) : Nat) : Int),
         .sw "$t9" "$sp" ((4 * (d + 1) : Nat) : Int)]

/-- SpillContext.spill (instruction.py lines 19-47), instruction part.
Empty register list: nothing.  Depth 0: decrement `$sp` by
`len(registers) * 4` and store register `i` (1-based) at offset `i*4`.
Depth > 0 with several registers: spill the last register, then the rest,
each at the same depth.  Depth > 0 with one register: decrement `$sp` by
one word, shift the `depth` resident words down through `$t9`, then store
the register at offset `(depth+1)*4`. -/
def spillInstrs (registers : List RegisterNode) (depth : Nat) : List Instr :=
  match registers, depth with
  | [], _ => []
  | r :: rs, 0 =>
      .addi "$sp" "$sp" (((r :: rs).length : Int) * -4) :: storeSeq (r :: rs) 1
  | [r], d + 1 =>
      .addi "$sp" "$sp" (-4) ::
        (shiftInstrs (d + 1) ++ [.sw r.reg "$sp" ((4 * (d + 2) : Nat) : Int)])
  | r₁ :: r₂ :: rs, d + 1 =>
      spillInstrs [(r₁ :: r₂ :: rs).getLast (by simp)] (d + 1) ++
        spillInstrs (r₁ :: r₂ :: rs).dropLast (d + 1)
termination_by registers.length
decreasing_by
  · simp
  · simp [List.length_dropLast]

/-- SpillContext.unspill (instruction.py lines 49-57), instruction part:
load register `i` (1-based) from offset `i*4`, then increment `$sp` by
`4 * len(registers)`. -/
def unspillInstrs (registers : List RegisterNode) : List Instr :=
  loadSeq registers 1 ++ [.addi "$sp" "$sp" ((4 * registers.length : Nat) : Int)]

/-- The groups appended to `self.stack` by one call of SpillContext.spill,
in append order.  The group is appended before the recursive calls
(instruction.py line 22), and the depth > 0 multi-register branch
recurses through `self.spill`, so each recursive call appends again. -/
def spillGroups (registers : List RegisterNode) (depth : Nat) :
    List (List RegisterNode) :=
  match registers, depth with
  | [], _ => []
  | r :: rs, 0 => [r :: rs]
  | [r], _ + 1 => [[r]]
  | r₁ :: r₂ :: rs, d + 1 =>
      (r₁ :: r₂ :: rs) ::
        (spillGroups [(r₁ :: r₂ :: rs).getLast (by simp)] (d + 1) ++
          spillGroups (r₁ :: r₂ :: rs).dropLast (d + 1))
termination_by registers.length
decreasing_by
  · simp
  · simp [List.length_dropLast]

/-- SpillContext state: the internal stack of spilled register groups
(top of stack = last list element, matching Python list append/pop). -/
structure SpillStack where
  stack : List (List RegisterNode)
deriving DecidableEq, Repr

/-- SpillContext.spill: the emitted instructions together with the updated
group stack. -/
def scSpill (sc : SpillStack) (registers : List RegisterNode) (depth : Nat) :
    List Instr × SpillStack :=
  (spillInstrs registers depth, ⟨sc.stack ++ spillGroups registers depth⟩)

/-- SpillContext.unspill: with explicit registers the stack is untouched;
with `none` the most recently appended group is popped.  (Python raises
IndexError on popping an empty stack; that situation does not arise in
any modelled lowering, and is mapped to an empty emission here.) -/
def scUnspill (sc : SpillStack) (registers : Option (List RegisterNode)) :
    List Instr × SpillStack :=
  match registers with
  | some rs => (unspillInstrs rs, sc)
  | none =>
      match sc.stack.getLast? with
      | some g => (unspillInstrs g, ⟨sc.stack.dropLast⟩)
      | none => ([], sc)

/-- PointerNode.construct (node.py line 116): `offset(base)`. -/
def ptrRender (off : Int) (base : String) : String :=
  Int.repr off ++ "(" ++ regRenderStr base ++ ")"

/-- InstructionNode.construct (instruction.py line 86):
four spaces, the mnemonic, a space, then the comma-joined operands. -/
def render : Instr → String
  | .addi d s imm => "    addi " ++ regRenderStr d ++ ", " ++ regRenderStr s ++ ", " ++ Int.repr imm
  | .li d imm => "    li " ++ regRenderStr d ++ ", " ++ Int.repr imm
  | .lw d b off => "    lw " ++ regRenderStr d ++ ", " ++ ptrRender off b
  | .sw s b off => "    sw " ++ regRenderStr s ++ ", " ++ ptrRender off b
  | .swId s t => "    sw " ++ regRenderStr s ++ ", " ++ t
  | .jal t => "    jal " ++ t
  | .jr r => "    jr " ++ regRenderStr r
  | .syscallI => "    syscall "

/-- The lines of a rendered instruction list. -/
def renderLines (l : List Instr) : List String := l.map render

/-- Python `'\n'.join`. -/
def joinLines : List String → String
  | [] => ""
  | [l] => l
  | l :: ls => l ++ "\n" ++ joinLines ls

/-- A rendered instruction list as one text block. -/
def renderInstrs (l : List Instr) : String := joinLines (renderLines l)

/-- Truthiness of Python `x.strip()`: the line has a non-whitespace char. -/
def hasVisibleChar (s : String) : Bool := s.data.any fun c => !c.isWhitespace

/-- Machine state for the straight-line semantics: integer registers
addressed by name, memory addressed by integer byte address. -/
structure MachineState where
  regs : String → Int
  mem : Int → Int

/-- Pointwise register-file update. -/
def updReg (f : String → Int) (k : String) (v : Int) : String → Int :=
  fun x => if x = k then v else f x

/-- Pointwise memory update. -/
def updMem (f : Int → Int) (a : Int) (v : Int) : Int → Int :=
  fun x => if x = a then v else f x

/-- Small-step semantics of one instruction.  `sw` to a data label and the
control-flow instructions do not touch the register/stack state modelled
here (they never occur in the spill and unspill sequences the semantic
theorems are about). -/
def exec (s : MachineState) : Instr → MachineState
  | .addi d src imm => { s with regs := updReg s.regs d (s.regs src + imm) }
  | .li d imm => { s with regs := updReg s.regs d imm }
  | .lw d b off => { s with regs := updReg s.regs d (s.mem (s.regs b + off)) }
  | .sw src b off => { s with mem := updMem s.mem (s.regs b + off) (s.regs src) }
  | .swId _ _ => s
  | .jal _ => s
  | .jr _ => s
  | .syscallI => s

/-- Execution of a straight-line instruction sequence. -/
def run (s : MachineState) (l : List Instr) : MachineState := l.foldl exec s

/-- CallInstruction.construct (instruction.py lines 357-366).  The
procedure table lookup hits a `defaultdict(list)`: a missing procedure
produces the empty-list default, and `parameters.values()` then raises
`AttributeError: 'list' object has no attribute 'values'` (a fixed
message that does not mention the procedure).  On success: spill `$ra`
at the computed depth, `jal` to the procedure, then unspill (popping the
group the spill recorded). -/
def callConstruct (procs : String → Option ParamList) (proc : String) :
    Except String String :=
  match procs proc with
  | none => .error "AttributeError: \x27list\x27 object has no attribute \x27values\x27"
  | some params =>
      let sp := scSpill ⟨[]⟩ [raReg] (spillDepthOf params)
      let un := scUnspill sp.2 none
      .ok (joinLines (renderLines sp.1 ++ [render (.jal proc)] ++ renderLines un.1))

/-- SyscallInstruction.construct (instruction.py lines 385-404).  Bare
syscall: the generic one-line emission (empty operand list).  Named
syscall: resolve the name in the external table (ValueError naming the
syscall if absent), then emit spill of `$v0` at depth 0, `li $v0, id`,
bare syscall, `sw $v0, _return`, unspill, with blank lines filtered out
of the joined text. -/
def syscallConstruct (tbl : String → Option Int) :
    Option String → Except String String
  | none => .ok "    syscall "
  | some name =>
      match tbl name with
      | none => .error ("Unknown syscall " ++ name)
      | some id =>
          let sp := scSpill ⟨[]⟩ [v0Reg] 0
          let un := scUnspill sp.2 none
          .ok (joinLines ((renderLines sp.1 ++
            [render (.li "$v0" id), render .syscallI, render (.swId "$v0" "_return")] ++
            renderLines un.1).filter hasVisibleChar))

/-- DocCommentNode data (node.py lines 29-31): the commented item and the
accumulated comment texts. -/
structure DocComment where
  item : String
  comments : List String
deriving DecidableEq, Repr

/-- ProcedureNode data (procedures.py lines 92-96). -/
structure Procedure where
  name : String
  parameters : ParamList
  documentation : List DocComment
deriving DecidableEq, Repr

/-- Construct of a parameter operand (RegisterNode or PointerNode). -/
def paramConstruct : Param → String
  | .register r => regConstruct r
  | .pointer b off => Int.repr off ++ "(" ++ regConstruct b ++ ")"

/-- PROCEDURE_SPILLS (procedures.py line 8):
`tuple(RegisterNode(f'$s{i}') for i in range(8))`. -/
def procSpills : List RegisterNode := (List.range 8).map fun i => ⟨"$s" ++ Nat.repr i⟩

/-- The comment texts accumulated by ProcedureNode.construct
(procedures.py lines 106-114): every doc comment line of the
documentation blocks, then, when parameters exist, a blank comment and
one `operand: name` comment per parameter. -/
def docCommentLines (p : Procedure) : List String :=
  (p.documentation.flatMap fun d => d.comments) ++
    (if p.parameters.isEmpty then []
     else "" :: p.parameters.map fun q => paramConstruct q.2 ++ ": " ++ q.1)

/-- CommentNode.construct (node.py line 25). -/
def commentLineRender (c : String) : String := "# " ++ c

/-- The `documentation` string of ProcedureNode.construct before the
label adjustment. -/
def procDocText (p : Procedure) : String :=
  joinLines ((docCommentLines p).map commentLineRender)

/-- Python `str.lstrip()` (leading whitespace removed). -/
def pyLstrip (s : String) : String := String.mk (s.data.dropWhile Char.isWhitespace)

/-- The label component: LabelNode.construct gives `\n{name}:`; when the
documentation block is non-empty the label is lstripped
(procedures.py lines 117-120). -/
def procLabelText (p : Procedure) : String :=
  if procDocText p = "" then "\n" ++ p.name ++ ":"
  else pyLstrip ("\n" ++ p.name ++ ":")

/-- The documentation component after the adjustment: prefixed with a
newline exactly when non-empty (procedures.py line 120). -/
def procDocTextShifted (p : Procedure) : String :=
  if procDocText p = "" then procDocText p else "\n" ++ procDocText p

/-- ProcedureNode.construct (procedures.py lines 104-135): join the
non-blank components documentation, label, prologue spill; the prologue
spills PROCEDURE_SPILLS at a depth equal to the number of the
procedure's stack-pointer based pointer parameters. -/
def procedureConstruct (p : Procedure) : String :=
  joinLines (([procDocTextShifted p, procLabelText p,
    renderInstrs (spillInstrs procSpills (spillDepthOf p.parameters))]).filter
      fun s => hasVisibleChar s)

/-- ReturnInstruction.construct (procedures.py lines 138-143): unspill of
PROCEDURE_SPILLS (explicit registers, fresh SpillContext) then `jr $ra`. -/
def retConstruct : String :=
  joinLines [renderInstrs (scUnspill ⟨[]⟩ (some procSpills)).1, render (.jr "$ra")]

/-- Symbol-usage table of the Context (node.py line 139): insertion-ordered
association list, mirroring the Python dict keyed by identifier name. -/
def symLookup : List (String × Nat) → String → Option Nat
  | [], _ => none
  | (k, v) :: rest, n => if k = n then some v else symLookup rest n

/-- `ctxt.symbols[self] += 1` on a `defaultdict(int)`: a missing key is
created (appended, value 0) and then incremented. -/
def symIncr : List (String × Nat) → String → List (String × Nat)
  | [], n => [(n, 1)]
  | (k, v) :: rest, n =>
      if k = n then (k, v + 1) :: rest else (k, v) :: symIncr rest n

/-- `if name not in ctxt.symbols: ctxt.symbols[name] = 0`. -/
def symEnsure (syms : List (String × Nat)) (n : String) : List (String × Nat) :=
  if (symLookup syms n).isSome then syms else syms ++ [(n, 0)]

/-- Procedure-table lookup. -/
def procLookup : List (String × ParamList) → String → Option ParamList
  | [], _ => none
  | (k, v) :: rest, n => if k = n then some v else procLookup rest n

/-- `ctxt.procedures[name] = parameters`: replace in place or append. -/
def procSet : List (String × ParamList) → String → ParamList →
    List (String × ParamList)
  | [], n, ps => [(n, ps)]
  | (k, v) :: rest, n, ps =>
      if k = n then (k, ps) :: rest else (k, v) :: procSet rest n ps

/-- Context (node.py lines 136-139): procedure table and symbol usage
counters. -/
structure Context where
  procedures : List (String × ParamList)
  symbols : List (String × Nat)
deriving DecidableEq, Repr

/-- IdentifierNode.register (node.py lines 71-73). -/
def identRegister (ctxt : Context) (n : String) : Context :=
  { ctxt with symbols := symIncr ctxt.symbols n }

/-- LabelNode.register (node.py lines 123-126). -/
def labelRegister (ctxt : Context) (n : String) : Context :=
  { ctxt with symbols := symEnsure ctxt.symbols n }

/-- ProcedureNode.register (procedures.py lines 98-102). -/
def procRegister (ctxt : Context) (n : String) (params : ParamList) : Context :=
  { ctxt with
    procedures := procSet ctxt.procedures n params
    symbols := symEnsure ctxt.symbols n }

/-- Python `name.startswith('_')`: the name begins with an underscore
(first character test). -/
def startsWithUnderscore (s : String) : Bool := s.data.take 1 = ['_']

/-- Context.validate (node.py lines 141-150): one warning text per symbol
whose count is zero, except names starting with an underscore and the
name `main`. -/
def validate (syms : List (String × Nat)) : List String :=
  syms.filterMap fun e =>
    if e.2 ≠ 0 then none
    else if startsWithUnderscore e.1 then none
    else if e.1 = "main" then none
    else some (e.1 ++ " is unused")

theorem run_append (s : MachineState) (l₁ l₂ : List Instr) :
    run s (l₁ ++ l₂) = run (run s l₁) l₂ := by
  simp [run, List.foldl_append]

theorem run_cons (s : MachineState) (i : Instr) (l : List Instr) :
    run s (i :: l) = run (exec s i) l := rfl

theorem run_nil (s : MachineState) : run s [] = s := rfl

theorem storeSeq_regs (R : List RegisterNode) (i : Nat) (s : MachineState) :
    (run s (storeSeq R i)).regs = s.regs := by
  induction R generalizing i s with
  | nil => rfl
  | cons r rs ih =>
    rw [storeSeq, run_cons, ih]
    rfl

theorem storeSeq_mem_miss (R : List RegisterNode) (i : Nat) (s : MachineState) (a : Int)
    (h : ∀ j, j < R.length → a ≠ s.regs "$sp" + ((4 * (i + j) : Nat) : Int)) :
    (run s (storeSeq R i)).mem a = s.mem a := by
  induction R generalizing i s with
  | nil => rfl
  | cons r rs ih =>
    rw [storeSeq, run_cons]
    rw [ih]
    · show updMem s.mem (s.regs "$sp" + ((4 * i : Nat) : Int)) (s.regs r.reg) a = s.mem a
      have h0 := h 0 (by simp)
      simp only [Nat.add_zero] at h0
      simp only [updMem]
      push_cast at h0 ⊢
      rw [if_neg h0]
    · intro j hj
      have := h (j + 1) (by simpa using Nat.succ_lt_succ hj)
      show a ≠ s.regs "$sp" + _
      push_cast at this ⊢
      omega

theorem storeSeq_mem_hit (R : List RegisterNode) (i : Nat) (s : MachineState)
    (j : Nat) (hj : j < R.length) :
    (run s (storeSeq R i)).mem (s.regs "$sp" + ((4 * (i + j) : Nat) : Int)) =
      s.regs (R.get ⟨j, hj⟩).reg := by
  induction R generalizing i s j with
  | nil => simp at hj
  | cons r rs ih =>
    cases j with
    | zero =>
      rw [storeSeq, run_cons]
      rw [storeSeq_mem_miss]
      · show updMem s.mem (s.regs "$sp" + ((4 * i : Nat) : Int)) (s.regs r.reg) _ = _
        simp [updMem]
      · intro j' hj'
        show s.regs "$sp" + _ ≠ s.regs "$sp" + _
        push_cast
        omega
    | succ j' =>
      rw [storeSeq, run_cons]
      have e : 4 * (i + (j' + 1)) = 4 * ((i + 1) + j') := by omega
      rw [e]
      have := ih (i + 1) (exec s (.sw r.reg "$sp" ((4 * i : Nat) : Int))) j' (by simpa using hj)
      simpa using this

theorem loadSeq_mem (R : List RegisterNode) (i : Nat) (s : MachineState) :
    (run s (loadSeq R i)).mem = s.mem := by
  induction R generalizing i s with
  | nil => rfl
  | cons r rs ih =>
    rw [loadSeq, run_cons, ih]
    rfl

theorem loadSeq_effect (R : List RegisterNode) (i : Nat) (s : MachineState)
    (base : Int) (v : String → Int)
    (hsp : s.regs "$sp" = base) (hvsp : v "$sp" = base)
    (hmem : ∀ j, (hj : j < R.length) →
      s.mem (base + ((4 * (i + j) : Nat) : Int)) = v (R.get ⟨j, hj⟩).reg)
    (x : String) :
    (run s (loadSeq R i)).regs x =
      if ∃ r ∈ R, r.reg = x then v x else s.regs x := by
  induction R generalizing i s with
  | nil => simp [loadSeq, run_nil]
  | cons r rs ih =>
    rw [loadSeq, run_cons]
    have h0 := hmem 0 (by simp)
    simp only [Nat.add_zero, List.get] at h0
    have hexec : (exec s (.lw r.reg "$sp" ((4 * i : Nat) : Int))).regs
        = updReg s.regs r.reg (v r.reg) := by
      show updReg s.regs r.reg (s.mem (s.regs "$sp" + _)) = _
      rw [hsp, h0]
    have hsp' : (exec s (.lw r.reg "$sp" ((4 * i : Nat) : Int))).regs "$sp" = base := by
      rw [hexec]
      show (if "$sp" = r.reg then v r.reg else s.regs "$sp") = base
      by_cases hr : "$sp" = r.reg
      · rw [if_pos hr, ← hr, hvsp]
      · rw [if_neg hr, hsp]
    rw [ih (i + 1) _ hsp' ?hm]
    case hm =>
      intro j hj
      have := hmem (j + 1) (by simpa using Nat.succ_lt_succ hj)
      have e : 4 * (i + (j + 1)) = 4 * ((i + 1) + j) := by omega
      rw [e] at this
      show (exec s _).mem _ = _
      simpa using this
    by_cases hx : ∃ r' ∈ rs, r'.reg = x
    · obtain ⟨r', hr', hrx'⟩ := hx
      rw [if_pos ⟨r', hr', hrx'⟩, if_pos ⟨r', List.mem_cons_of_mem _ hr', hrx'⟩]
    · by_cases hrx : r.reg = x
      · rw [if_neg hx, if_pos ⟨r, List.mem_cons_self _ _, hrx⟩, hexec]
        subst hrx
        simp [updReg]
      · rw [if_neg hx, if_neg, hexec]
        · simp [updReg, Ne.symm hrx]
        · rintro ⟨r', hr', hrx'⟩
          rcases List.mem_cons.mp hr' with h | h
          · exact hrx (h ▸ hrx')
          · exact hx ⟨r', h, hrx'⟩

theorem storeSeq_length (R : List RegisterNode) (i : Nat) :
    (storeSeq R i).length = R.length := by
  induction R generalizing i with
  | nil => rfl
  | cons r rs ih => simp [storeSeq, ih]

theorem loadSeq_length (R : List RegisterNode) (i : Nat) :
    (loadSeq R i).length = R.length := by
  induction R generalizing i with
  | nil => rfl
  | cons r rs ih => simp [loadSeq, ih]

theorem storeSeq_getElem (R : List RegisterNode) (i j : Nat) (hj : j < R.length) :
    (storeSeq R i)[j]? = some (.sw (R.get ⟨j, hj⟩).reg "$sp" ((4 * (i + j) : Nat) : Int)) := by
  induction R generalizing i j with
  | nil => simp at hj
  | cons r rs ih =>
    cases j with
    | zero => simp [storeSeq]
    | succ j' =>
      have e : 4 * (i + (j' + 1)) = 4 * ((i + 1) + j') := by omega
      rw [e]
      simpa [storeSeq] using ih (i + 1) j' (by simpa using hj)

theorem loadSeq_getElem (R : List RegisterNode) (i j : Nat) (hj : j < R.length) :
    (loadSeq R i)[j]? = some (.lw (R.get ⟨j, hj⟩).reg "$sp" ((4 * (i + j) : Nat) : Int)) := by
  induction R generalizing i j with
  | nil => simp at hj
  | cons r rs ih =>
    cases j with
    | zero => simp [loadSeq]
    | succ j' =>
      have e : 4 * (i + (j' + 1)) = 4 * ((i + 1) + j') := by omega
      rw [e]
      simpa [loadSeq] using ih (i + 1) j' (by simpa using hj)

theorem spillInstrs_zero (r : RegisterNode) (rs : List RegisterNode) :
    spillInstrs (r :: rs) 0 =
      .addi "$sp" "$sp" (((r :: rs).length : Int) * -4) :: storeSeq (r :: rs) 1 := by
  rw [spillInstrs]

/-- C2: executing `spill(R, depth=0)` then `unspill(R)` restores the stack
pointer and every register of R; the depth-0 spill decrements the stack
pointer by 4*len(R) and stores the i-th register (1-based) at offset i*4,
and unspill loads each register from those offsets and increments the
stack pointer by 4*len(R). -/
theorem depth0_spill_unspill_roundtrip (R : List RegisterNode) (hR : R ≠ [])
    (s : MachineState) :
    (run (run s (spillInstrs R 0)) (unspillInstrs R)).regs "$sp" = s.regs "$sp"
  ∧ (∀ r ∈ R, (run (run s (spillInstrs R 0)) (unspillInstrs R)).regs r.reg = s.regs r.reg)
  ∧ (run s (spillInstrs R 0)).regs "$sp" = s.regs "$sp" - 4 * R.length
  ∧ (spillInstrs R 0)[0]? = some (.addi "$sp" "$sp" ((R.length : Int) * -4))
  ∧ (∀ j, (hj : j < R.length) → (spillInstrs R 0)[j + 1]? =
      some (.sw (R.get ⟨j, hj⟩).reg "$sp" ((4 * (j + 1) : Nat) : Int)))
  ∧ (∀ j, (hj : j < R.length) → (unspillInstrs R)[j]? =
      some (.lw (R.get ⟨j, hj⟩).reg "$sp" ((4 * (j + 1) : Nat) : Int)))
  ∧ (unspillInstrs R)[R.length]? = some (.addi "$sp" "$sp" ((4 * R.length : Nat) : Int)) := by
  obtain ⟨r, rs, rfl⟩ : ∃ r rs, R = r :: rs := by
    cases R with
    | nil => exact absurd rfl hR
    | cons a l => exact ⟨a, l, rfl⟩
  set R := r :: rs with hRdef
  -- the spill
  set base : Int := s.regs "$sp" + (R.length : Int) * -4 with hbase
  have hrun1 : run s (spillInstrs R 0) =
      run (exec s (.addi "$sp" "$sp" ((R.length : Int) * -4))) (storeSeq R 1) := by
    rw [spillInstrs_zero, run_cons]
  have hregs1 : (run s (spillInstrs R 0)).regs = updReg s.regs "$sp" base := by
    rw [hrun1, storeSeq_regs]
    rfl
  have hsp1 : (run s (spillInstrs R 0)).regs "$sp" = base := by
    rw [hregs1]
    simp [updReg]
  have hmem1 : ∀ j, (hj : j < R.length) →
      (run s (spillInstrs R 0)).mem (base + ((4 * (1 + j) : Nat) : Int)) =
        updReg s.regs "$sp" base (R.get ⟨j, hj⟩).reg := by
    intro j hj
    rw [hrun1]
    have := storeSeq_mem_hit R 1 (exec s (.addi "$sp" "$sp" ((R.length : Int) * -4))) j hj
    simpa [exec, updReg] using this
  -- the unspill
  have hrun2 : run (run s (spillInstrs R 0)) (unspillInstrs R) =
      run (run (run s (spillInstrs R 0)) (loadSeq R 1))
        [.addi "$sp" "$sp" ((4 * R.length : Nat) : Int)] := by
    rw [unspillInstrs, run_append]
  have hload : ∀ x, (run (run s (spillInstrs R 0)) (loadSeq R 1)).regs x =
      updReg s.regs "$sp" base x := by
    intro x
    rw [loadSeq_effect R 1 _ base (updReg s.regs "$sp" base) hsp1 (by simp [updReg])
      (by intro j hj; rw [hmem1 j hj])]
    by_cases hx : ∃ r' ∈ R, r'.reg = x
    · rw [if_pos hx]
    · rw [if_neg hx, hregs1]
  have hfinal : ∀ x, (run (run s (spillInstrs R 0)) (unspillInstrs R)).regs x =
      updReg (updReg s.regs "$sp" base) "$sp" (s.regs "$sp") x := by
    intro x
    rw [hrun2]
    show updReg _ "$sp" (_ + ((4 * R.length : Nat) : Int)) x = _
    have hb : (run (run s (spillInstrs R 0)) (loadSeq R 1)).regs "$sp" = base := by
      rw [hload]
      simp [updReg]
    rw [hb]
    have : base + ((4 * R.length : Nat) : Int) = s.regs "$sp" := by
      rw [hbase]
      push_cast
      ring
    rw [this]
    unfold updReg
    by_cases hx : x = "$sp"
    · rw [if_pos hx, if_pos hx]
    · rw [if_neg hx, if_neg hx, hload]
      rfl
  refine ⟨?_, ?_, ?_, ?_, ?_, ?_, ?_⟩
  · rw [hfinal]
    simp [updReg]
  · intro reg hreg
    rw [hfinal]
    unfold updReg
    by_cases hx : reg.reg = "$sp"
    · rw [if_pos hx, hx]
    · rw [if_neg hx, if_neg hx]
  · rw [hsp1, hbase]
    ring
  · rw [spillInstrs_zero]
    simp [hRdef]
  · intro j hj
    rw [spillInstrs_zero]
    have e : 4 * (j + 1) = 4 * (1 + j) := by omega
    rw [e]
    simpa using storeSeq_getElem R 1 j hj
  · intro j hj
    rw [unspillInstrs, List.getElem?_append]
    rw [if_pos (by rw [loadSeq_length]; exact hj)]
    have e : 4 * (j + 1) = 4 * (1 + j) := by omega
    rw [e]
    exact loadSeq_getElem R 1 j hj
  · rw [unspillInstrs, List.getElem?_append]
    rw [if_neg (by rw [loadSeq_length]; omega)]
    rw [loadSeq_length]
    simp

theorem exec_lw_regs (s : MachineState) (d b : String) (off : Int) (x : String) :
    (exec s (.lw d b off)).regs x = if x = d then s.mem (s.regs b + off) else s.regs x := rfl

theorem exec_lw_mem (s : MachineState) (d b : String) (off : Int) :
    (exec s (.lw d b off)).mem = s.mem := rfl

theorem exec_sw_regs (s : MachineState) (src b : String) (off : Int) :
    (exec s (.sw src b off)).regs = s.regs := rfl

theorem exec_sw_mem (s : MachineState) (src b : String) (off : Int) (a : Int) :
    (exec s (.sw src b off)).mem a =
      if a = s.regs b + off then s.regs src else s.mem a := rfl

theorem exec_addi_regs (s : MachineState) (d src : String) (imm : Int) (x : String) :
    (exec s (.addi d src imm)).regs x =
      if x = d then s.regs src + imm else s.regs x := rfl

theorem exec_addi_mem (s : MachineState) (d src : String) (imm : Int) :
    (exec s (.addi d src imm)).mem = s.mem := rfl

theorem shiftInstrs_effect (k : Nat) (t : MachineState) :
    (∀ x, x ≠ "$t9" → (run t (shiftInstrs k)).regs x = t.regs x)
  ∧ (∀ a : Int, (∀ i : Nat, 1 ≤ i → i ≤ k → a ≠ t.regs "$sp" + ((4 * i : Nat) : Int)) →
      (run t (shiftInstrs k)).mem a = t.mem a)
  ∧ (∀ i : Nat, 1 ≤ i → i ≤ k →
      (run t (shiftInstrs k)).mem (t.regs "$sp" + ((4 * i : Nat) : Int)) =
        t.mem (t.regs "$sp" + ((4 * (i + 1) : Nat) : Int))) := by
  induction k with
  | zero =>
    refine ⟨fun x _ => rfl, fun a _ => rfl, fun i h1 h2 => ?_⟩
    omega
  | succ d ih =>
    obtain ⟨ihregs, ihmiss, ihhit⟩ := ih
    have husp : (run t (shiftInstrs d)).regs "$sp" = t.regs "$sp" :=
      ihregs "$sp" (by decide)
    have hloadval : (run t (shiftInstrs d)).mem
        (t.regs "$sp" + ((4 * (d + 2) : Nat) : Int)) =
        t.mem (t.regs "$sp" + ((4 * (d + 2) : Nat) : Int)) := by
      refine ihmiss _ fun i h1 h2 => ?_
      push_cast
      omega
    have hrun : run t (shiftInstrs (d + 1)) =
        exec (exec (run t (shiftInstrs d))
            (.lw "$t9" "$sp" ((4 * (d + 2) : Nat) : Int)))
          (.sw "$t9" "$sp" ((4 * (d + 1) : Nat) : Int)) := by
      rw [shiftInstrs, run_append, run_cons, run_cons, run_nil]
    refine ⟨?_, ?_, ?_⟩
    · intro x hx
      rw [hrun, exec_sw_regs, exec_lw_regs, if_neg hx]
      exact ihregs x hx
    · intro a ha
      rw [hrun, exec_sw_mem, exec_lw_mem, exec_lw_regs, exec_lw_regs,
        if_neg (by decide : ¬("$sp" : String) = "$t9"), if_pos rfl, husp]
      rw [if_neg (ha (d + 1) (by omega) (by omega))]
      refine ihmiss a fun i h1 h2 => ha i h1 (by omega)
    · intro i h1 h2
      rw [hrun, exec_sw_mem, exec_lw_mem, exec_lw_regs, exec_lw_regs,
        if_neg (by decide : ¬("$sp" : String) = "$t9"), if_pos rfl, husp]
      by_cases hi : i = d + 1
      · subst hi
        rw [if_pos rfl]
        have e : d + 1 + 1 = d + 2 := rfl
        rw [e, hloadval]
      · rw [if_neg (by push_cast; omega)]
        exact ihhit i h1 (by omega)

theorem spillInstrs_single_pos (r : RegisterNode) (d : Nat) :
    spillInstrs [r] (d + 1) =
      .addi "$sp" "$sp" (-4) ::
        (shiftInstrs (d + 1) ++ [.sw r.reg "$sp" ((4 * (d + 2) : Nat) : Int)]) := by
  rw [spillInstrs]

/-- C1 (amended): for every register r other than the scratch register $t9
and the stack pointer $sp, and every depth k >= 1, the text emitted by
spill([r], depth=k) first decrements the stack pointer by one word, then
performs k load/store round trips through $t9 moving the word at offset
(i+1)*4 to offset i*4 for i = 1..k, and finally stores r at offset
(k+1)*4; the k pre-existing words that sat at stack-pointer offsets 4..4k
before the spill sit at the same stack-pointer-relative offsets after it,
and the pre-spill value of r is at offset (k+1)*4.  (For r = $t9 the loop
clobbers the scratch register before the final store, and for r = $sp the
stored value is the already-decremented pointer, so the original claim
fails there; see the counterexample.) -/
theorem depth_spill_preservation (r : RegisterNode) (k : Nat) (hk : 1 ≤ k)
    (hr9 : r.reg ≠ "$t9") (hrsp : r.reg ≠ "$sp") (s : MachineState) :
    spillInstrs [r] k =
      .addi "$sp" "$sp" (-4) ::
        (shiftInstrs k ++ [.sw r.reg "$sp" ((4 * (k + 1) : Nat) : Int)])
  ∧ (run s (spillInstrs [r] k)).regs "$sp" = s.regs "$sp" - 4
  ∧ (∀ i : Nat, 1 ≤ i → i ≤ k →
      (run s (spillInstrs [r] k)).mem
          ((run s (spillInstrs [r] k)).regs "$sp" + ((4 * i : Nat) : Int)) =
        s.mem (s.regs "$sp" + ((4 * i : Nat) : Int)))
  ∧ (run s (spillInstrs [r] k)).mem
        ((run s (spillInstrs [r] k)).regs "$sp" + ((4 * (k + 1) : Nat) : Int)) =
      s.regs r.reg := by
  obtain ⟨d, rfl⟩ : ∃ d, k = d + 1 := ⟨k - 1, by omega⟩
  have hsyn := spillInstrs_single_pos r d
  have he : d + 1 + 1 = d + 2 := rfl
  set s1 := exec s (.addi "$sp" "$sp" (-4)) with hs1
  have hs1regs : ∀ x, s1.regs x = if x = "$sp" then s.regs "$sp" + -4 else s.regs x :=
    fun x => exec_addi_regs s "$sp" "$sp" (-4) x
  have hs1sp : s1.regs "$sp" = s.regs "$sp" - 4 := by
    rw [hs1regs, if_pos rfl]
    ring
  have hs1mem : s1.mem = s.mem := rfl
  obtain ⟨eregs, emiss, ehit⟩ := shiftInstrs_effect (d + 1) s1
  set u := run s1 (shiftInstrs (d + 1)) with hu
  have husp : u.regs "$sp" = s1.regs "$sp" := eregs "$sp" (by decide)
  have hrun : run s (spillInstrs [r] (d + 1)) =
      exec u (.sw r.reg "$sp" ((4 * (d + 2) : Nat) : Int)) := by
    rw [hsyn, run_cons, run_append, run_cons, run_nil, hu, hs1]
  have hfsp : (run s (spillInstrs [r] (d + 1))).regs "$sp" = s.regs "$sp" - 4 := by
    rw [hrun, exec_sw_regs, husp, hs1sp]
  refine ⟨by rw [hsyn, he], hfsp, ?_, ?_⟩
  · intro i h1 h2
    rw [hfsp, hrun, exec_sw_mem]
    rw [if_neg (by rw [husp, hs1sp]; push_cast; omega)]
    have hmm := ehit i h1 (by omega)
    rw [hs1mem] at hmm
    have ea : s1.regs "$sp" + ((4 * i : Nat) : Int) = s.regs "$sp" - 4 + ((4 * i : Nat) : Int) := by
      rw [hs1sp]
    have eb : s1.regs "$sp" + ((4 * (i + 1) : Nat) : Int) = s.regs "$sp" + ((4 * i : Nat) : Int) := by
      rw [hs1sp]
      push_cast
      ring
    rw [ea, eb] at hmm
    exact hmm
  · rw [hfsp, hrun, exec_sw_mem, he]
    rw [if_pos (by rw [husp, hs1sp])]
    rw [eregs r.reg hr9, hs1regs, if_neg hrsp]

/-- C1 counterexample: with r = $t9 and k = 1, the word stored at offset
(k+1)*4 is the shifted resident word (55), not the pre-spill value of
$t9 (7), refuting the claim as stated for every register r. -/
theorem depth_spill_scratch_counterexample :
    ¬ ((run ⟨fun x => if x = "$sp" then 100 else if x = "$t9" then 7 else 0,
            fun a => if a = 104 then 55 else 0⟩
          (spillInstrs [⟨"$t9"⟩] 1)).mem
        ((run ⟨fun x => if x = "$sp" then 100 else if x = "$t9" then 7 else 0,
            fun a => if a = 104 then 55 else 0⟩
          (spillInstrs [⟨"$t9"⟩] 1)).regs "$sp" + ((4 * (1 + 1) : Nat) : Int)) =
        (⟨fun x => if x = "$sp" then 100 else if x = "$t9" then 7 else 0,
            fun a => if a = 104 then 55 else 0⟩ : MachineState).regs "$t9") := by
  have h := spillInstrs_single_pos ⟨"$t9"⟩ 0
  norm_num at h
  rw [h]
  decide

theorem spillGroups_single (r : RegisterNode) (d : Nat) :
    spillGroups [r] d = [[r]] := by
  cases d with
  | zero => rw [spillGroups]
  | succ d => rw [spillGroups]

/-- C3: for a call instruction naming a procedure present in the procedure
table, lowering computes spill_depth as the number of that procedure's
parameters that are stack-pointer-based pointer operands, and emits the
spill of $ra at that depth, an unconditional jump-and-link to the
procedure's name, then the matching unspill (the group popped by the
unspill is exactly the spilled ($ra) group). -/
theorem call_lowering (procs : String → Option ParamList) (proc : String)
    (params : ParamList) (h : procs proc = some params) :
    callConstruct procs proc =
      .ok (joinLines (renderLines
        (spillInstrs [raReg] (spillDepthOf params) ++ [.jal proc] ++
          unspillInstrs [raReg])))
  ∧ spillDepthOf params = (params.map Prod.snd).countP isSpPointer := by
  constructor
  · simp only [callConstruct, h]
    simp [scSpill, scUnspill, spillGroups_single, renderLines]
  · rw [spillDepthOf, List.countP_eq_length_filter]

/-- C4 counterexample: spill((t0, t1), depth=1) on an empty spill stack
records three groups, (t0, t1), (t1,) and (t0,), not exactly one. -/
theorem spill_stack_one_group_counterexample :
    (scSpill ⟨[]⟩ [⟨"$t0"⟩, ⟨"$t1"⟩] 1).2.stack =
      [[⟨"$t0"⟩, ⟨"$t1"⟩], [⟨"$t1"⟩], [⟨"$t0"⟩]]
  ∧ (scSpill ⟨[]⟩ [⟨"$t0"⟩, ⟨"$t1"⟩] 1).2.stack ≠ [[⟨"$t0"⟩, ⟨"$t1"⟩]] := by
  have h : spillGroups [⟨"$t0"⟩, ⟨"$t1"⟩] 1 =
      [[⟨"$t0"⟩, ⟨"$t1"⟩], [⟨"$t1"⟩], [⟨"$t0"⟩]] := by
    rw [spillGroups]
    norm_num
    rw [spillGroups_single, spillGroups_single]
    decide
  constructor
  · show ([] ++ spillGroups [⟨"$t0"⟩, ⟨"$t1"⟩] 1) = _
    rw [List.nil_append, h]
  · show ([] ++ spillGroups [⟨"$t0"⟩, ⟨"$t1"⟩] 1) ≠ _
    rw [List.nil_append, h]
    decide

/-- C4 (amended): a spill of a non-empty register list records exactly one
group, the given register tuple, when the depth is 0 or the list is a
single register (a depth > 0 spill of several registers also records the
recursively split subgroups); and unspill called with no argument removes
exactly the most recently recorded group and emits the restore of exactly
that group's registers. -/
theorem spill_stack_discipline (sc : SpillStack) (R : List RegisterNode) (d : Nat) :
    (R ≠ [] → (d = 0 ∨ R.length = 1) → (scSpill sc R d).2.stack = sc.stack ++ [R])
  ∧ (∀ h : sc.stack ≠ [],
      scUnspill sc none =
        (unspillInstrs (sc.stack.getLast h), ⟨sc.stack.dropLast⟩)) := by
  constructor
  · intro hR hd
    show sc.stack ++ spillGroups R d = sc.stack ++ [R]
    rcases hd with hd | hd
    · subst hd
      cases R with
      | nil => exact absurd rfl hR
      | cons r rs => rw [spillGroups]
    · obtain ⟨r, rfl⟩ : ∃ r, R = [r] := by
        cases R with
        | nil => exact absurd rfl hR
        | cons r rs =>
          cases rs with
          | nil => exact ⟨r, rfl⟩
          | cons a l => simp at hd
      rw [spillGroups_single]
  · intro h
    rw [scUnspill, List.getLast?_eq_getLast _ h]

/-- C7 (amended): lowering a named syscall whose name is absent from the
syscall table fails with a message naming that syscall; lowering a call
instruction whose procedure name is not in the procedure table also fails
fatally during code generation, but through the attribute error raised on
the procedure table's empty-list default, whose message is a fixed text
that does not name the procedure. -/
theorem resolution_failures (tbl : String → Option Int) (name : String)
    (h1 : tbl name = none) (procs : String → Option ParamList) (proc : String)
    (h2 : procs proc = none) :
    syscallConstruct tbl (some name) = .error ("Unknown syscall " ++ name)
  ∧ callConstruct procs proc =
      .error "AttributeError: \x27list\x27 object has no attribute \x27values\x27" := by
  constructor
  · simp [syscallConstruct, h1]
  · simp [callConstruct, h2]

/-- C7 counterexample: lowering a call to the unknown procedure foo fails,
but the error message does not contain the procedure name foo, refuting
the claim that the message names the missing procedure. -/
theorem call_unknown_message_counterexample :
    callConstruct (fun _ => none) "foo" =
      .error "AttributeError: \x27list\x27 object has no attribute \x27values\x27"
  ∧ ¬ ("foo".data <:+:
        "AttributeError: \x27list\x27 object has no attribute \x27values\x27".data) := by
  exact ⟨rfl, by decide⟩

/-- C10: lowering a Register node emits the register's name verbatim except
the register named $0, which is emitted as $zero; consequently the operand
text emitted for a register operand is never the string $0. -/
theorem register_zero_rendering :
    regConstruct ⟨"$0"⟩ = "$zero"
  ∧ (∀ r : RegisterNode, r.reg ≠ "$0" → regConstruct r = r.reg)
  ∧ (∀ r : RegisterNode, regConstruct r ≠ "$0") := by
  refine ⟨rfl, fun r h => if_neg h, fun r => ?_⟩
  unfold regConstruct
  by_cases h : r.reg = "$0"
  · rw [if_pos h]
    decide
  · rw [if_neg h]
    exact h

theorem hasVisibleChar_append_left (s t : String) (h : hasVisibleChar s = true) :
    hasVisibleChar (s ++ t) = true := by
  unfold hasVisibleChar at h ⊢
  rw [String.data_append, List.any_append, h]
  rfl

theorem spillInstrs_v0 :
    spillInstrs [v0Reg] 0 =
      [.addi "$sp" "$sp" (-4), .sw "$v0" "$sp" (4 : Int)] := by
  rw [spillInstrs]
  norm_num [storeSeq, v0Reg]

theorem syscall_instr_list (n : Int) :
    spillInstrs [v0Reg] 0 ++
        ([.li "$v0" n, .syscallI, .swId "$v0" "_return"] : List Instr) ++
        unspillInstrs [v0Reg] =
      [.addi "$sp" "$sp" (-4), .sw "$v0" "$sp" (4 : Int), .li "$v0" n, .syscallI,
        .swId "$v0" "_return", .lw "$v0" "$sp" (4 : Int),
        .addi "$sp" "$sp" (4 : Int)] := by
  rw [spillInstrs_v0]
  norm_num [unspillInstrs, loadSeq, v0Reg]

/-- C5: a syscall instruction whose identifier maps to id n in the syscall
table lowers to exactly, in order: the depth-0 spill of $v0, a load of the
literal n into $v0, a bare syscall, a store of $v0 into the word named
_return, and the unspill of $v0; every emitted line is non-blank (so the
blank-line filter removes nothing); and a syscall instruction with no
operand lowers to the bare native syscall instruction unchanged. -/
theorem syscall_lowering (tbl : String → Option Int) (name : String) (n : Int)
    (h : tbl name = some n) :
    syscallConstruct tbl (some name) =
      .ok (joinLines (renderLines
        (spillInstrs [v0Reg] 0 ++
          [.li "$v0" n, .syscallI, .swId "$v0" "_return"] ++
          unspillInstrs [v0Reg])))
  ∧ (∀ l ∈ renderLines
        (spillInstrs [v0Reg] 0 ++
          [.li "$v0" n, .syscallI, .swId "$v0" "_return"] ++
          unspillInstrs [v0Reg]), hasVisibleChar l = true)
  ∧ syscallConstruct tbl none = .ok "    syscall " := by
  have hlines : ∀ l ∈ renderLines
      (spillInstrs [v0Reg] 0 ++
        [.li "$v0" n, .syscallI, .swId "$v0" "_return"] ++
        unspillInstrs [v0Reg]), hasVisibleChar l = true := by
    intro l hl
    rw [syscall_instr_list] at hl
    simp only [renderLines, List.map_cons, List.map_nil, List.mem_cons,
      List.not_mem_nil, or_false] at hl
    rcases hl with rfl | rfl | rfl | rfl | rfl | rfl | rfl
    · decide
    · decide
    · show hasVisibleChar ("    li " ++ regRenderStr "$v0" ++ ", " ++ Int.repr n) = true
      exact hasVisibleChar_append_left _ _ (by decide)
    · decide
    · decide
    · decide
    · decide
  have hun : scUnspill ⟨[] ++ spillGroups [v0Reg] 0⟩ none =
      (unspillInstrs [v0Reg], ⟨[]⟩) := by
    rw [spillGroups_single]
    rfl
  have hsplit : renderLines
      (spillInstrs [v0Reg] 0 ++
        [Instr.li "$v0" n, Instr.syscallI, Instr.swId "$v0" "_return"] ++
        unspillInstrs [v0Reg]) =
      renderLines (spillInstrs [v0Reg] 0) ++
        [render (Instr.li "$v0" n), render Instr.syscallI,
          render (Instr.swId "$v0" "_return")] ++
        renderLines (unspillInstrs [v0Reg]) := by
    simp [renderLines]
  refine ⟨?_, hlines, rfl⟩
  simp only [syscallConstruct, h, scSpill, hun]
  rw [hsplit]
  rw [List.filter_eq_self.mpr]
  intro l hl
  refine hlines l ?_
  rw [hsplit]
  exact hl

theorem joinLines_append_single (l : List String) (b : String) (h : l ≠ []) :
    joinLines (l ++ [b]) = joinLines l ++ "\n" ++ b := by
  induction l with
  | nil => exact absurd rfl h
  | cons a as ih =>
    cases as with
    | nil => rfl
    | cons c cs =>
      show a ++ "\n" ++ joinLines ((c :: cs) ++ [b]) = (a ++ "\n" ++ joinLines (c :: cs)) ++ "\n" ++ b
      rw [ih (by simp)]
      simp [String.append_assoc]

theorem procSpills_list :
    procSpills = [⟨"$s0"⟩, ⟨"$s1"⟩, ⟨"$s2"⟩, ⟨"$s3"⟩, ⟨"$s4"⟩, ⟨"$s5"⟩, ⟨"$s6"⟩, ⟨"$s7"⟩] := by
  decide

/-- C6: lowering a Procedure emits its accumulated documentation comments
(with one operand-text: name comment line per parameter after a blank
comment when parameters exist), then its label, then a prologue that
spills the fixed eight callee-saved registers $s0..$s7 at a depth equal to
the number of the procedure's stack-pointer-based pointer parameters; and
the return pseudo-instruction emits the unspill of that same fixed eight
register set followed by a jump through the return-address register. -/
theorem procedure_lowering (p : Procedure) :
    procedureConstruct p =
      joinLines (([procDocTextShifted p, procLabelText p,
        renderInstrs (spillInstrs
          [⟨"$s0"⟩, ⟨"$s1"⟩, ⟨"$s2"⟩, ⟨"$s3"⟩, ⟨"$s4"⟩, ⟨"$s5"⟩, ⟨"$s6"⟩, ⟨"$s7"⟩]
          ((p.parameters.map Prod.snd).countP isSpPointer))]).filter
            fun s => hasVisibleChar s)
  ∧ (p.parameters ≠ [] →
      docCommentLines p =
        (p.documentation.flatMap fun d => d.comments) ++ [""] ++
          (p.parameters.map fun q => paramConstruct q.2 ++ ": " ++ q.1))
  ∧ retConstruct =
      renderInstrs (unspillInstrs
        [⟨"$s0"⟩, ⟨"$s1"⟩, ⟨"$s2"⟩, ⟨"$s3"⟩, ⟨"$s4"⟩, ⟨"$s5"⟩, ⟨"$s6"⟩, ⟨"$s7"⟩] ++
        [.jr "$ra"]) := by
  refine ⟨?_, ?_, ?_⟩
  · rw [procedureConstruct, procSpills_list, spillDepthOf,
      List.countP_eq_length_filter]
  · intro hp
    rw [docCommentLines]
    rw [if_neg (by simpa [List.isEmpty_iff] using hp)]
    simp
  · rw [retConstruct, procSpills_list]
    have hne : renderLines (unspillInstrs
        [(⟨"$s0"⟩ : RegisterNode), ⟨"$s1"⟩, ⟨"$s2"⟩, ⟨"$s3"⟩, ⟨"$s4"⟩, ⟨"$s5"⟩, ⟨"$s6"⟩, ⟨"$s7"⟩]) ≠ [] := by
      decide
    rw [show renderInstrs (unspillInstrs
        [(⟨"$s0"⟩ : RegisterNode), ⟨"$s1"⟩, ⟨"$s2"⟩, ⟨"$s3"⟩, ⟨"$s4"⟩, ⟨"$s5"⟩, ⟨"$s6"⟩, ⟨"$s7"⟩] ++
        [Instr.jr "$ra"]) =
      joinLines (renderLines (unspillInstrs
        [(⟨"$s0"⟩ : RegisterNode), ⟨"$s1"⟩, ⟨"$s2"⟩, ⟨"$s3"⟩, ⟨"$s4"⟩, ⟨"$s5"⟩, ⟨"$s6"⟩, ⟨"$s7"⟩]) ++
        [render (Instr.jr "$ra")]) from by simp [renderInstrs, renderLines]]
    rw [joinLines_append_single _ _ hne]
    rfl

theorem symLookup_symIncr_self (syms : List (String × Nat)) (n : String) :
    symLookup (symIncr syms n) n = some ((symLookup syms n).getD 0 + 1) := by
  induction syms with
  | nil => simp [symIncr, symLookup]
  | cons e rest ih =>
    by_cases hk : e.1 = n
    · simp [symIncr, symLookup, hk]
    · simp [symIncr, symLookup, hk, ih]

theorem symLookup_symIncr_other (syms : List (String × Nat)) (n m : String)
    (h : m ≠ n) :
    symLookup (symIncr syms n) m = symLookup syms m := by
  induction syms with
  | nil => simp [symIncr, symLookup, Ne.symm h]
  | cons e rest ih =>
    by_cases hk : e.1 = n
    · simp [symIncr, symLookup, hk, Ne.symm h, ih]
    · by_cases hm : e.1 = m
      · simp [symIncr, symLookup, hk, hm, h]
      · simp [symIncr, symLookup, hk, hm, ih]

theorem symLookup_append_new (syms : List (String × Nat)) (n : String) (v : Nat)
    (h : symLookup syms n = none) :
    symLookup (syms ++ [(n, v)]) n = some v := by
  induction syms with
  | nil => simp [symLookup]
  | cons e rest ih =>
    by_cases hk : e.1 = n
    · rw [symLookup, if_pos hk] at h
      exact absurd h (by simp)
    · rw [symLookup] at h
      rw [if_neg hk] at h
      simp only [List.cons_append, symLookup, if_neg hk]
      exact ih h

theorem symLookup_append_other (syms : List (String × Nat)) (n m : String) (v : Nat)
    (h : m ≠ n) :
    symLookup (syms ++ [(n, v)]) m = symLookup syms m := by
  induction syms with
  | nil => simp [symLookup, Ne.symm h]
  | cons e rest ih =>
    by_cases hm : e.1 = m
    · simp [symLookup, hm]
    · simp only [List.cons_append, symLookup, if_neg hm]
      exact ih

theorem symLookup_symEnsure_self (syms : List (String × Nat)) (n : String) :
    symLookup (symEnsure syms n) n = some ((symLookup syms n).getD 0) := by
  unfold symEnsure
  cases h : symLookup syms n with
  | none => simp [h, symLookup_append_new syms n 0 h]
  | some v => simp [h]

theorem symLookup_symEnsure_other (syms : List (String × Nat)) (n m : String)
    (h : m ≠ n) :
    symLookup (symEnsure syms n) m = symLookup syms m := by
  unfold symEnsure
  cases hs : symLookup syms n with
  | none => simp [symLookup_append_other syms n m 0 h]
  | some v => simp

theorem procLookup_procSet_self (ps : List (String × ParamList)) (n : String)
    (v : ParamList) :
    procLookup (procSet ps n v) n = some v := by
  induction ps with
  | nil => simp [procSet, procLookup]
  | cons e rest ih =>
    by_cases hk : e.1 = n
    · simp [procSet, procLookup, hk]
    · simp [procSet, procLookup, hk, ih]

theorem procLookup_procSet_other (ps : List (String × ParamList)) (n m : String)
    (v : ParamList) (h : m ≠ n) :
    procLookup (procSet ps n v) m = procLookup ps m := by
  induction ps with
  | nil => simp [procSet, procLookup, Ne.symm h]
  | cons e rest ih =>
    by_cases hk : e.1 = n
    · simp [procSet, procLookup, hk, Ne.symm h, ih]
    · by_cases hm : e.1 = m
      · simp [procSet, procLookup, hk, hm, h]
      · simp [procSet, procLookup, hk, hm, ih]

/-- C8: registering an Identifier operand increments that identifier's
usage counter by one (creating it at one if absent) and leaves every
other symbol unchanged; registering a Label ensures the name has an entry
with value 0 if no entry exists and never changes an existing count; and
registering a Procedure records its parameter map under its name in the
procedure table, leaves other procedures unchanged, and updates the
symbol table exactly like a Label registration of the procedure name. -/
theorem registration_pass (ctxt : Context) (n : String) :
    symLookup (identRegister ctxt n).symbols n =
      some ((symLookup ctxt.symbols n).getD 0 + 1)
  ∧ (∀ m, m ≠ n →
      symLookup (identRegister ctxt n).symbols m = symLookup ctxt.symbols m)
  ∧ symLookup (labelRegister ctxt n).symbols n =
      some ((symLookup ctxt.symbols n).getD 0)
  ∧ (∀ m, m ≠ n →
      symLookup (labelRegister ctxt n).symbols m = symLookup ctxt.symbols m)
  ∧ (∀ params : ParamList,
        procLookup (procRegister ctxt n params).procedures n = some params
      ∧ (∀ m, m ≠ n → procLookup (procRegister ctxt n params).procedures m =
          procLookup ctxt.procedures m)
      ∧ (procRegister ctxt n params).symbols = (labelRegister ctxt n).symbols) := by
  refine ⟨symLookup_symIncr_self _ _,
    fun m hm => symLookup_symIncr_other _ _ _ hm,
    symLookup_symEnsure_self _ _,
    fun m hm => symLookup_symEnsure_other _ _ _ hm,
    fun params => ⟨procLookup_procSet_self _ _ _,
      fun m hm => procLookup_procSet_other _ _ _ _ hm, rfl⟩⟩

theorem string_append_right_cancel (a b s : String) : a ++ s = b ++ s ↔ a = b := by
  constructor
  · intro h
    have hd := congrArg String.data h
    rw [String.data_append, String.data_append] at hd
    exact String.ext (List.append_cancel_right hd)
  · intro h
    rw [h]

theorem validate_cons (e : String × Nat) (rest : List (String × Nat)) :
    validate (e :: rest) =
      (if e.2 = 0 ∧ ¬(startsWithUnderscore e.1 = true) ∧ e.1 ≠ "main"
        then [e.1 ++ " is unused"] else []) ++ validate rest := by
  rw [validate, validate, List.filterMap_cons]
  by_cases h1 : e.2 = 0
  · by_cases h2 : startsWithUnderscore e.1
    · simp [h1, h2]
    · by_cases h3 : e.1 = "main"
      · simp [h1, h2, h3]
      · simp [h1, h2, h3]
  · simp [h1]

theorem validate_mem_msg (syms : List (String × Nat)) (msg : String)
    (h : msg ∈ validate syms) : ∃ e, e ∈ syms ∧ msg = e.1 ++ " is unused" := by
  simp only [validate, List.mem_filterMap] at h
  obtain ⟨e, he, hfe⟩ := h
  refine ⟨e, he, ?_⟩
  by_cases h1 : e.2 ≠ 0
  · rw [if_pos h1] at hfe
    cases hfe
  rw [if_neg h1] at hfe
  by_cases h2 : startsWithUnderscore e.1
  · rw [if_pos h2] at hfe
    cases hfe
  rw [if_neg h2] at hfe
  by_cases h3 : e.1 = "main"
  · rw [if_pos h3] at hfe
    cases hfe
  rw [if_neg h3] at hfe
  exact (Option.some.inj hfe).symm

theorem validate_count_one (n : String) (hus : ¬(startsWithUnderscore n = true))
    (hmain : n ≠ "main") :
    ∀ syms : List (String × Nat), (syms.map Prod.fst).Nodup → (n, 0) ∈ syms →
      (validate syms).count (n ++ " is unused") = 1 := by
  intro syms
  induction syms with
  | nil =>
    intro _ h
    simp at h
  | cons e rest ih =>
    intro hnd hmem
    have hnotin : e.1 ∉ rest.map Prod.fst := (List.nodup_cons.mp (by simpa using hnd)).1
    have hnd' : (rest.map Prod.fst).Nodup := (List.nodup_cons.mp (by simpa using hnd)).2
    rw [validate_cons, List.count_append]
    rcases List.mem_cons.mp hmem with heq | hmem'
    · obtain rfl := heq.symm
      rw [if_pos ⟨rfl, hus, hmain⟩]
      have hrest : (validate rest).count (n ++ " is unused") = 0 := by
        rw [List.count_eq_zero]
        intro hmm
        obtain ⟨e', he', hmsg⟩ := validate_mem_msg rest _ hmm
        have : n = e'.1 := (string_append_right_cancel n e'.1 " is unused").mp hmsg
        exact hnotin (by simpa [← this] using List.mem_map_of_mem Prod.fst he')
      rw [hrest]
      simp
    · have hne : e.1 ≠ n := by
        intro hh
        exact hnotin (by simpa [hh] using List.mem_map_of_mem Prod.fst hmem')
      have hzero : ((if e.2 = 0 ∧ ¬(startsWithUnderscore e.1 = true) ∧ e.1 ≠ "main"
          then [e.1 ++ " is unused"] else []) : List String).count (n ++ " is unused") = 0 := by
        by_cases hq : e.2 = 0 ∧ ¬(startsWithUnderscore e.1 = true) ∧ e.1 ≠ "main"
        · rw [if_pos hq, List.count_eq_zero]
          intro hmm
          rcases List.mem_singleton.mp hmm with hmsg
          exact hne ((string_append_right_cancel n e.1 " is unused").mp hmsg).symm
        · rw [if_neg hq]
          rfl
      rw [hzero, ih hnd' hmem', Nat.zero_add]

/-- C9: validation emits exactly the diagnostics name-is-unused for the
symbols whose usage count is zero, excluding names starting with an
underscore and the name main, in table order; in particular, with
distinct symbol names, each qualifying zero-count symbol produces exactly
one diagnostic naming it.  `validate` is a total function producing only
this warning list: it raises no error and does not touch the generated
output. -/
theorem validate_diagnostics (syms : List (String × Nat)) :
    validate syms =
      (syms.filter fun e =>
        e.2 == 0 && !(startsWithUnderscore e.1) && !(e.1 == "main")).map
        (fun e => e.1 ++ " is unused")
  ∧ (∀ n : String, (syms.map Prod.fst).Nodup → (n, 0) ∈ syms →
      ¬(startsWithUnderscore n = true) → n ≠ "main" →
      (validate syms).count (n ++ " is unused") = 1) := by
  constructor
  · induction syms with
    | nil => rfl
    | cons e rest ih =>
      rw [validate_cons, List.filter_cons]
      by_cases h1 : e.2 = 0
      · by_cases h2 : startsWithUnderscore e.1
        · simp [h1, h2, ih]
        · by_cases h3 : e.1 = "main"
          · simp [h1, h2, h3, ih]
          · simp [h1, h2, h3, ih]
      · simp [h1, ih]
  · intro n hnd hmem hus hmain
    exact validate_count_one n hus hmain syms hnd hmem

theorem depth_spill_preservation_witness :
    (run ⟨fun x => if x = "$sp" then 100 else 7, fun _ => 0⟩
        (spillInstrs [⟨"$t0"⟩] 1)).mem
      ((run ⟨fun x => if x = "$sp" then 100 else 7, fun _ => 0⟩
          (spillInstrs [⟨"$t0"⟩] 1)).regs "$sp" + ((4 * (1 + 1) : Nat) : Int)) = 7 := by
  have h := (depth_spill_preservation ⟨"$t0"⟩ 1 (by decide) (by decide) (by decide)
    ⟨fun x => if x = "$sp" then 100 else 7, fun _ => 0⟩).2.2.2
  rw [h]
  decide

theorem depth0_spill_unspill_roundtrip_witness :
    (run (run ⟨fun x => if x = "$sp" then 100 else 7, fun _ => 0⟩
        (spillInstrs [⟨"$t0"⟩] 0)) (unspillInstrs [⟨"$t0"⟩])).regs "$t0" = 7
  ∧ (run (run ⟨fun x => if x = "$sp" then 100 else 7, fun _ => 0⟩
        (spillInstrs [⟨"$t0"⟩] 0)) (unspillInstrs [⟨"$t0"⟩])).regs "$sp" = 100 := by
  have h := depth0_spill_unspill_roundtrip [⟨"$t0"⟩] (by decide)
    ⟨fun x => if x = "$sp" then 100 else 7, fun _ => 0⟩
  constructor
  · rw [h.2.1 ⟨"$t0"⟩ (by decide)]
    decide
  · rw [h.1]
    decide

theorem call_lowering_witness :
    callConstruct (fun nm => if nm = "f"
        then some [("a", Param.register ⟨"$a0"⟩), ("b", Param.pointer ⟨"$sp"⟩ 4)]
        else none) "f" =
      .ok (joinLines (renderLines
        (spillInstrs [raReg] 1 ++ [.jal "f"] ++ unspillInstrs [raReg])))
  ∧ ([("a", Param.register ⟨"$a0"⟩), ("b", Param.pointer ⟨"$sp"⟩ 4)].map
      Prod.snd).countP isSpPointer = 1 := by
  have h := call_lowering (fun nm => if nm = "f"
      then some [("a", Param.register ⟨"$a0"⟩), ("b", Param.pointer ⟨"$sp"⟩ 4)]
      else none) "f"
    [("a", Param.register ⟨"$a0"⟩), ("b", Param.pointer ⟨"$sp"⟩ 4)] (by decide)
  constructor
  · have h1 := h.1
    rw [show spillDepthOf
        [("a", Param.register ⟨"$a0"⟩), ("b", Param.pointer ⟨"$sp"⟩ 4)] = 1 from by decide]
      at h1
    exact h1
  · rw [← h.2]
    decide

theorem spill_stack_discipline_witness :
    (scSpill ⟨[[⟨"$ra"⟩]]⟩ [⟨"$t0"⟩] 5).2.stack = [[⟨"$ra"⟩], [⟨"$t0"⟩]]
  ∧ scUnspill ⟨[[⟨"$ra"⟩]]⟩ none = (unspillInstrs [⟨"$ra"⟩], ⟨[]⟩) := by
  have h := spill_stack_discipline ⟨[[⟨"$ra"⟩]]⟩ [⟨"$t0"⟩] 5
  constructor
  · exact h.1 (by decide) (Or.inr (by decide))
  · simpa using h.2 (by decide)

theorem syscall_lowering_witness :
    syscallConstruct (fun nm => if nm = "print_int" then some 1 else none)
        (some "print_int") =
      .ok (joinLines (renderLines
        (spillInstrs [v0Reg] 0 ++
          [.li "$v0" 1, .syscallI, .swId "$v0" "_return"] ++
          unspillInstrs [v0Reg])))
  ∧ syscallConstruct (fun nm => if nm = "print_int" then some 1 else none) none =
      .ok "    syscall " := by
  have h := syscall_lowering (fun nm => if nm = "print_int" then some 1 else none)
    "print_int" 1 (by decide)
  exact ⟨h.1, h.2.2⟩

theorem procedure_lowering_witness :
    docCommentLines ⟨"f", [("b", Param.pointer ⟨"$sp"⟩ 4)], []⟩ = ["", "4($sp): b"] := by
  have h := (procedure_lowering ⟨"f", [("b", Param.pointer ⟨"$sp"⟩ 4)], []⟩).2.1
    (by decide)
  rw [h]
  decide

theorem resolution_failures_witness :
    syscallConstruct (fun _ => none) (some "bogus") =
      .error ("Unknown syscall " ++ "bogus")
  ∧ callConstruct (fun _ => none) "bar" =
      .error "AttributeError: \x27list\x27 object has no attribute \x27values\x27" :=
  resolution_failures (fun _ => none) "bogus" rfl (fun _ => none) "bar" rfl

theorem registration_pass_witness :
    symLookup (identRegister ⟨[], [("x", 2)]⟩ "x").symbols "x" = some 3
  ∧ symLookup (labelRegister ⟨[], [("x", 2)]⟩ "y").symbols "y" = some 0
  ∧ symLookup (identRegister ⟨[], [("x", 2)]⟩ "x").symbols "z" =
      symLookup [("x", 2)] "z" := by
  refine ⟨?_, ?_, ?_⟩
  · rw [(registration_pass ⟨[], [("x", 2)]⟩ "x").1]
    decide
  · rw [(registration_pass ⟨[], [("x", 2)]⟩ "y").2.2.1]
    decide
  · exact (registration_pass ⟨[], [("x", 2)]⟩ "x").2.1 "z" (by decide)

theorem validate_diagnostics_witness :
    validate [("foo", 0), ("_r", 0), ("main", 0), ("bar", 2)] = ["foo is unused"]
  ∧ (validate [("foo", 0), ("_r", 0), ("main", 0), ("bar", 2)]).count
      ("foo" ++ " is unused") = 1 := by
  have h := validate_diagnostics [("foo", 0), ("_r", 0), ("main", 0), ("bar", 2)]
  constructor
  · rw [h.1]
    decide
  · exact h.2 "foo" (by decide) (by decide) (by decide) (by decide)

theorem register_zero_rendering_witness :
    regConstruct ⟨"$t0"⟩ = "$t0" ∧ regConstruct ⟨"$0"⟩ ≠ "$0" :=
  ⟨register_zero_rendering.2.1 ⟨"$t0"⟩ (by decide),
    register_zero_rendering.2.2 ⟨"$0"⟩⟩
